import Mathlib

/-!
Verification of the scheduling core of the Python-Backend repository.

The embedding mirrors src/api/model.py:
* durations travel as "HH:MM:SS" strings in the source and are parsed with
  parse_duration at every use; videos are embedded with their parsed
  durationSeconds value (the codec itself, parse_duration and
  format_duration, is embedded separately over lists of characters, which
  model Python strings).
* a schedule is a Python dict from the label "Day n" to a list of video
  dicts, in insertion order; since the day counter is strictly increasing,
  the labels are in bijection with the integers n, and the embedding uses
  the list of pairs (n, videos) in insertion order.
* Python floats appear once, in avg_daily = total_duration / num_days of
  create_schedule_day_based; the comparison current + d > total / num is
  embedded as the exact comparison (current + d) * num > total.  All
  theorems proved about the day-based packer are independent of where the
  greedy split falls, so they are unaffected by double rounding.
-/

/-- A video dict as built by fetch_playlist_details (src/api/model.py):
title, duration (kept here as its parsed seconds value), link, thumbnail.
The link is None exactly for the synthetic "Revision Day" filler items. -/
structure Video where
  title : String
  durationSeconds : Nat
  link : Option String
  thumbnail : Option String
deriving DecidableEq

/-- The synthetic filler item appended by create_schedule_day_based
(title "Revision Day", duration "00:00:00", link None, thumbnail None). -/
def revisionDay : Video := ⟨"Revision Day", 0, none, none⟩

/-- Python str.split on the colon separator, over character lists. -/
def splitColon : List Char → List (List Char)
  | [] => [[]]
  | c :: cs =>
    if c = ':' then [] :: splitColon cs
    else
      match splitColon cs with
      | [] => [[c]]
      | p :: ps => (c :: p) :: ps

/-- Python int(part) on one colon-separated part: succeeds on a nonempty
all-digit string (signs, whitespace and underscores never occur in the
duration grammar and are not modelled), fails otherwise (ValueError). -/
def pyInt? (cs : List Char) : Option Nat :=
  if cs ≠ [] ∧ cs.all (fun c => c.isDigit) then
    some (cs.foldl (fun a c => a * 10 + (c.toNat - 48)) 0)
  else none

/-- list(map(int, parts)): converts every part eagerly; any failure raises. -/
def seqInts : List (List Char) → Option (List Nat)
  | [] => some []
  | p :: ps =>
    match pyInt? p, seqInts ps with
    | some n, some ns => some (n :: ns)
    | _, _ => none

/-- parse_duration (src/api/model.py lines 137-141): split on the colon,
convert each part with int, then sum part * mult over
zip(parts[-3:], multipliers[-len(parts):]) with multipliers [3600, 60, 1]. -/
def parse_duration (cs : List Char) : Option Nat :=
  match seqInts (splitColon cs) with
  | none => none
  | some ns =>
    some (((ns.drop (ns.length - 3)).zip ([3600, 60, 1].drop (3 - ns.length))).foldl
      (fun a p => a + p.1 * p.2) 0)

/-- Python str(n) for a natural number: its decimal digit characters. -/
def natChars (n : Nat) : List Char :=
  if n = 0 then ['0'] else ((Nat.digits 10 n).map Nat.digitChar).reverse

/-- A Python format item with the 02 spec: pad with zeros to width two. -/
def pad2 (n : Nat) : List Char :=
  if n < 10 then '0' :: natChars n else natChars n

/-- format_duration (src/api/model.py lines 111-115): divmod by 3600 and 60,
then the f-string with three 02-padded fields joined by colons. -/
def format_duration (s : Nat) : List Char :=
  pad2 (s / 3600) ++ ':' :: pad2 (s % 3600 / 60) ++ ':' :: pad2 (s % 3600 % 60)

/-- Loop state of both packers: emitted buckets, the day counter, and the
running bucket with its accumulated duration. -/
structure PackState where
  sched : List (Nat × List Video)
  day : Nat
  cur : List Video
  curDur : Nat
deriving DecidableEq

/-- One iteration of the loop in create_schedule_time_based
(src/api/model.py lines 229-250): an item longer than the daily limit
flushes the running bucket (if nonempty) and is emitted alone; otherwise
the item is appended when it fits, and a new bucket is started when not. -/
def tStep (budget : Nat) (s : PackState) (v : Video) : PackState :=
  let d := v.durationSeconds
  if budget < d then
    let s1 := if s.cur = [] then s
      else ⟨s.sched ++ [(s.day, s.cur)], s.day + 1, [], 0⟩
    ⟨s1.sched ++ [(s1.day, [v])], s1.day + 1, [], 0⟩
  else if s.curDur + d ≤ budget then
    ⟨s.sched, s.day, s.cur ++ [v], s.curDur + d⟩
  else
    ⟨s.sched ++ [(s.day, s.cur)], s.day + 1, [v], d⟩

/-- create_schedule_time_based (src/api/model.py lines 221-255): greedy
first-fit in order against the budget daily_time_minutes * 60, starting at
Day 1, with a final flush of a nonempty running bucket. -/
def create_schedule_time_based (video_details : List Video) (daily_time_minutes : Nat) :
    List (Nat × List Video) :=
  let f := video_details.foldl (tStep (daily_time_minutes * 60)) ⟨[], 1, [], 0⟩
  if f.cur = [] then f.sched else f.sched ++ [(f.day, f.cur)]

/-- The loop of create_schedule_day_based (src/api/model.py lines 272-285):
when the running bucket is nonempty and adding the item would pass the
average load, the bucket is flushed; if the day counter then passes
num_days the loop breaks, BEFORE the item in hand is appended.  Otherwise
the item joins the running bucket.  The float comparison
current + d > total / num is embedded exactly as (current + d) * num > total. -/
def dLoop (total num : Nat) : PackState → List Video → PackState
  | s, [] => s
  | s, v :: vs =>
    let d := v.durationSeconds
    if total < (s.curDur + d) * num ∧ s.cur ≠ [] then
      if num < s.day + 1 then ⟨s.sched ++ [(s.day, s.cur)], s.day + 1, [], 0⟩
      else dLoop total num ⟨s.sched ++ [(s.day, s.cur)], s.day + 1, [v], d⟩ vs
    else dLoop total num ⟨s.sched, s.day, s.cur ++ [v], s.curDur + d⟩ vs

/-- create_schedule_day_based (src/api/model.py lines 258-300): empty input
returns the empty schedule; otherwise the greedy loop against the average
load runs, the final running bucket is flushed when its day does not pass
num_days, and one-item "Revision Day" filler buckets are appended while the
day counter is below num_days. -/
def create_schedule_day_based (video_details : List Video) (num_days : Nat) :
    List (Nat × List Video) :=
  if video_details = [] then [] else
  let total := (video_details.map Video.durationSeconds).sum
  let f := dLoop total num_days ⟨[], 1, [], 0⟩ video_details
  let g := if f.cur ≠ [] ∧ f.day ≤ num_days then f.sched ++ [(f.day, f.cur)] else f.sched
  g ++ (List.range' (f.day + 1) (num_days - f.day)).map (fun i => (i, [revisionDay]))

/-- Python truthiness of video.get('link'): False for a missing or None
link and for the empty string, True for any other string. -/
def truthyLink (v : Video) : Bool :=
  match v.link with
  | none => false
  | some s => !s.isEmpty

/-- The dict returned by get_schedule_summary, with the two formatted
durations kept as the character lists the f-string produces. -/
structure Summary where
  totalVideos : Nat
  totalDays : Nat
  studyDays : Nat
  totalDuration : List Char
  averageDailyDuration : List Char
deriving DecidableEq

/-- get_schedule_summary (src/api/model.py lines 303-324): study days count
the days with a truthy link (note: truthiness, not an is-not-None test);
total videos count the items whose link is not None; total seconds sum the
durations of truthy-link items; the average uses floor division by the
study-day count, with the literal "00:00:00" when that count is zero. -/
def get_schedule_summary (schedule : List (Nat × List Video)) : Summary :=
  let total_days := schedule.length
  let study_days := (schedule.filter (fun p => p.2.any truthyLink)).length
  let total_videos := (schedule.map (fun p => (p.2.filter (fun v => v.link.isSome)).length)).sum
  let total_seconds :=
    (schedule.map (fun p => ((p.2.filter truthyLink).map Video.durationSeconds).sum)).sum
  ⟨total_videos, total_days, study_days, format_duration total_seconds,
    if study_days = 0 then "00:00:00".toList
    else format_duration (total_seconds / study_days)⟩

/-- The completed-link collection of adjust_schedule (src/api/app.py lines
271-277): scan the old schedule's days in order and take the link of every
video whose completed flag is set. -/
def collectCompletedLinks (old : List (Nat × List (Video × Bool))) : List (Option String) :=
  (old.map (fun p => (p.2.filter (fun e => e.2)).map (fun e => e.1.link))).flatten

/-- The matching snapshot collection of adjust_schedule (src/api/app.py
lines 271-277): the completed video dicts themselves, in the same order. -/
def collectCompletedSnapshots (old : List (Nat × List (Video × Bool))) : List Video :=
  (old.map (fun p => (p.2.filter (fun e => e.2)).map Prod.fst)).flatten

/-- Modelled from the spec: the Completion Partition of section 4.4 keeps
the fresh items whose link is not among the completed links (order
preserved).  The packer implementation accepting completed_videos lives in
the repository's root-level model.py, which src/api/app.py imports but
which is not under src/. -/
def remainingOf (fresh : List Video) (links : List (Option String)) : List Video :=
  fresh.filter (fun v => !(decide (v.link ∈ links)))

/-- Modelled from the spec: one step of the greedy first-fit loop of the
Time-Budget Packer of section 4.2 (append while the accumulated duration
stays within the budget, otherwise close the nonempty running bucket and
start a new one holding just this item; an empty running bucket always
accepts the item, so an oversized item lands alone). -/
def packTimeStep (budget : Nat) (s : PackState) (v : Video) : PackState :=
  let d := v.durationSeconds
  if s.curDur + d ≤ budget then ⟨s.sched, s.day, s.cur ++ [v], s.curDur + d⟩
  else if s.cur = [] then ⟨s.sched, s.day, [v], d⟩
  else ⟨s.sched ++ [(s.day, s.cur)], s.day + 1, [v], d⟩

/-- Modelled from the spec: the anchored Time-Budget Packer of section 4.2,
labelling freshly packed buckets sequentially from anchor + 1 and flushing
a nonempty final bucket. -/
def packByTimeBudget (items : List Video) (budgetSeconds : Nat) (anchor : Nat) :
    List (Nat × List Video) :=
  let f := items.foldl (packTimeStep budgetSeconds) ⟨[], anchor + 1, [], 0⟩
  if f.cur = [] then f.sched else f.sched ++ [(f.day, f.cur)]

/-- The completion-flag reapplication of adjust_schedule (src/api/app.py
lines 302-309): video_completed = video link in completed_videos. -/
def applyCompletion (links : List (Option String)) (b : List Video) : List (Video × Bool) :=
  b.map (fun v => (v, decide (v.link ∈ links)))

/-- Modelled from the spec: the Re-planner of section 4.5 around
adjust_schedule (src/api/app.py lines 252-315).  Completed links and
snapshots are collected from the old schedule, the pinned anchor bucket
holds the snapshots verbatim (emitted when the anchor is positive or
snapshots exist, section 4.4), the remaining fresh items are re-packed from
anchor + 1, and the completed flag is reapplied by link membership. -/
def replan (old : List (Nat × List (Video × Bool))) (fresh : List Video)
    (budgetSeconds : Nat) (anchor : Nat) : List (Nat × List (Video × Bool)) :=
  let links := collectCompletedLinks old
  let snaps := collectCompletedSnapshots old
  let pinned : List (Nat × List Video) :=
    if 0 < anchor ∨ snaps ≠ [] then [(anchor, snaps)] else []
  let packed := packByTimeBudget (remainingOf fresh links) budgetSeconds anchor
  (pinned ++ packed).map (fun p => (p.1, applyCompletion links p.2))

/-- Spec wording (section 4.6): totalItems counts only non-filler items,
where a filler item is one with a null link. -/
def specTotalItems (schedule : List (Nat × List Video)) : Nat :=
  (schedule.map Prod.snd).flatten.countP (fun v => decide (v.link ≠ none))

/-- Amended spec wording: a bucket is a study bucket when it contains at
least one item whose link is present and nonempty. -/
def specStudyBuckets (schedule : List (Nat × List Video)) : Nat :=
  schedule.countP (fun p => decide (∃ v ∈ p.2, v.link ≠ none ∧ v.link ≠ some ("")))

/-- Amended spec wording: the total duration sums the durations of the
items whose link is present and nonempty. -/
def specTotalSeconds (schedule : List (Nat × List Video)) : Nat :=
  (((schedule.map Prod.snd).flatten.filter
      (fun v => decide (v.link ≠ none ∧ v.link ≠ some ("")))).map Video.durationSeconds).sum

/-! ## Lemmas about the duration codec -/

theorem digitChar_toNat_sub {d : Nat} (h : d < 10) : (Nat.digitChar d).toNat - 48 = d := by
  interval_cases d <;> decide

theorem digitChar_isDigit {d : Nat} (h : d < 10) : (Nat.digitChar d).isDigit = true := by
  interval_cases d <;> decide

theorem natChars_isDigit (n : Nat) : ∀ c ∈ natChars n, c.isDigit = true := by
  intro c hc
  unfold natChars at hc
  split at hc
  · simp only [List.mem_singleton] at hc
    subst hc; decide
  · rw [List.mem_reverse, List.mem_map] at hc
    obtain ⟨d, hd, rfl⟩ := hc
    exact digitChar_isDigit (Nat.digits_lt_base (by norm_num) hd)

theorem pad2_isDigit (n : Nat) : ∀ c ∈ pad2 n, c.isDigit = true := by
  intro c hc
  unfold pad2 at hc
  split at hc
  · rw [List.mem_cons] at hc
    rcases hc with rfl | hc
    · decide
    · exact natChars_isDigit n c hc
  · exact natChars_isDigit n c hc

theorem pad2_no_colon (n : Nat) : ∀ c ∈ pad2 n, c ≠ ':' := by
  intro c hc h
  have := pad2_isDigit n c hc
  subst h
  simp at this

theorem natChars_ne_nil (n : Nat) : natChars n ≠ [] := by
  unfold natChars
  split
  · simp
  · simp [Nat.digits_ne_nil_iff_ne_zero, *]

theorem pad2_ne_nil (n : Nat) : pad2 n ≠ [] := by
  unfold pad2
  split
  · simp
  · exact natChars_ne_nil n

theorem splitColon_no_colon (l : List Char) (h : ∀ c ∈ l, c ≠ ':') : splitColon l = [l] := by
  induction l with
  | nil => rfl
  | cons c cs ih =>
    have hc : c ≠ ':' := h c (by simp)
    have : splitColon cs = [cs] := ih (fun x hx => h x (by simp [hx]))
    simp [splitColon, hc, this]

theorem splitColon_append (a r : List Char) (h : ∀ c ∈ a, c ≠ ':') :
    splitColon (a ++ ':' :: r) = a :: splitColon r := by
  induction a with
  | nil => simp [splitColon]
  | cons c cs ih =>
    have hc : c ≠ ':' := h c (by simp)
    have hr : splitColon (cs ++ ':' :: r) = cs :: splitColon r :=
      ih (fun x hx => h x (by simp [hx]))
    simp only [List.cons_append, splitColon, hc, if_false, List.append_eq, hr]

theorem foldr_digit_congr (l : List Nat) (h : ∀ d ∈ l, d < 10) :
    l.foldr (fun d acc => acc * 10 + ((Nat.digitChar d).toNat - 48)) 0 =
      l.foldr (fun d acc => acc * 10 + d) 0 := by
  induction l with
  | nil => rfl
  | cons d tl ih =>
    simp only [List.foldr_cons]
    rw [ih (fun x hx => h x (by simp [hx])), digitChar_toNat_sub (h d (by simp))]

theorem foldr_ofDigits (l : List Nat) :
    l.foldr (fun d acc => acc * 10 + d) 0 = Nat.ofDigits 10 l := by
  induction l with
  | nil => rfl
  | cons d tl ih =>
    simp only [List.foldr_cons, ih, Nat.ofDigits_cons]
    ring

theorem foldl_natChars (n : Nat) :
    (natChars n).foldl (fun a c => a * 10 + (c.toNat - 48)) 0 = n := by
  unfold natChars
  split
  · subst ‹n = 0›; decide
  · rw [List.foldl_reverse, List.foldr_map]
    have h10 : ∀ d ∈ Nat.digits 10 n, d < 10 :=
      fun d hd => Nat.digits_lt_base (by norm_num) hd
    calc (Nat.digits 10 n).foldr (fun d acc => acc * 10 + ((Nat.digitChar d).toNat - 48)) 0
        = (Nat.digits 10 n).foldr (fun d acc => acc * 10 + d) 0 := foldr_digit_congr _ h10
      _ = Nat.ofDigits 10 (Nat.digits 10 n) := foldr_ofDigits _
      _ = n := Nat.ofDigits_digits 10 n

theorem pyInt_natChars (n : Nat) : pyInt? (natChars n) = some n := by
  unfold pyInt?
  rw [if_pos ⟨natChars_ne_nil n, List.all_eq_true.mpr (natChars_isDigit n)⟩, foldl_natChars]

theorem pyInt_pad2 (n : Nat) : pyInt? (pad2 n) = some n := by
  by_cases h : n < 10
  · unfold pyInt?
    rw [if_pos ⟨by simp [pad2, h], List.all_eq_true.mpr (pad2_isDigit n)⟩]
    have : pad2 n = '0' :: natChars n := by simp [pad2, h]
    rw [this, List.foldl_cons]
    have h0 : (0 : Nat) * 10 + ('0'.toNat - 48) = 0 := by decide
    rw [h0, foldl_natChars]
  · have : pad2 n = natChars n := by simp [pad2, h]
    rw [this, pyInt_natChars]

theorem seqInts_pad2 (a b c : Nat) :
    seqInts [pad2 a, pad2 b, pad2 c] = some [a, b, c] := by
  simp [seqInts, pyInt_pad2]

/-- C6: for every non-negative integer s, parsing the formatted form gives
back s: parse_duration (format_duration s) = some s, where format_duration
always emits zero-padded HH:MM:SS with an unbounded hours component. -/
theorem duration_roundtrip (s : Nat) : parse_duration (format_duration s) = some s := by
  have e : format_duration s =
      pad2 (s / 3600) ++ ':' :: (pad2 (s % 3600 / 60) ++ ':' :: pad2 (s % 3600 % 60)) := by
    unfold format_duration
    simp
  have hsplit : splitColon (format_duration s) =
      [pad2 (s / 3600), pad2 (s % 3600 / 60), pad2 (s % 3600 % 60)] := by
    rw [e, splitColon_append _ _ (pad2_no_colon _), splitColon_append _ _ (pad2_no_colon _),
      splitColon_no_colon _ (pad2_no_colon _)]
  have harith : 0 + (s / 3600) * 3600 + (s % 3600 / 60) * 60 + (s % 3600 % 60) * 1 = s := by
    have h1 := Nat.div_add_mod s 3600
    have h2 := Nat.div_add_mod (s % 3600) 60
    omega
  unfold parse_duration
  rw [hsplit, seqInts_pad2]
  simpa using harith

/-- C10: the duration parser accepts more than three colon-separated
numeric parts without failing; only the last three parts are used and the
leading extra part is discarded. -/
theorem parse_duration_extra_parts (a b c d : List Char)
    (ha : ∀ ch ∈ a, ch ≠ ':') (hb : ∀ ch ∈ b, ch ≠ ':')
    (hc : ∀ ch ∈ c, ch ≠ ':') (hd : ∀ ch ∈ d, ch ≠ ':')
    (na nb nc nd : Nat)
    (ha2 : pyInt? a = some na) (hb2 : pyInt? b = some nb)
    (hc2 : pyInt? c = some nc) (hd2 : pyInt? d = some nd) :
    parse_duration (a ++ ':' :: (b ++ ':' :: (c ++ ':' :: d))) =
      parse_duration (b ++ ':' :: (c ++ ':' :: d)) ∧
    (parse_duration (b ++ ':' :: (c ++ ':' :: d))).isSome = true := by
  have hs4 : splitColon (a ++ ':' :: (b ++ ':' :: (c ++ ':' :: d))) = [a, b, c, d] := by
    rw [splitColon_append _ _ ha, splitColon_append _ _ hb, splitColon_append _ _ hc,
      splitColon_no_colon _ hd]
  have hs3 : splitColon (b ++ ':' :: (c ++ ':' :: d)) = [b, c, d] := by
    rw [splitColon_append _ _ hb, splitColon_append _ _ hc, splitColon_no_colon _ hd]
  have h4 : seqInts [a, b, c, d] = some [na, nb, nc, nd] := by
    simp [seqInts, ha2, hb2, hc2, hd2]
  have h3 : seqInts [b, c, d] = some [nb, nc, nd] := by
    simp [seqInts, hb2, hc2, hd2]
  unfold parse_duration
  rw [hs4, hs3, h4, h3]
  simp

/-- C10 witness: the example of the claim, 9:01:02:03 parses to the same
value as 01:02:03, namely 3723 seconds. -/
theorem parse_duration_extra_parts_witness :
    parse_duration (['9'] ++ ':' :: (['0', '1'] ++ ':' :: (['0', '2'] ++ ':' :: ['0', '3']))) =
      parse_duration (['0', '1'] ++ ':' :: (['0', '2'] ++ ':' :: ['0', '3'])) ∧
    (parse_duration (['0', '1'] ++ ':' :: (['0', '2'] ++ ':' :: ['0', '3']))).isSome = true :=
  parse_duration_extra_parts ['9'] ['0', '1'] ['0', '2'] ['0', '3']
    (by decide) (by decide) (by decide) (by decide) 9 1 2 3
    (by decide) (by decide) (by decide) (by decide)

/-! ## Lemmas about the time-budget packer -/

theorem range'_one_snoc (n : Nat) : List.range' 1 n ++ [n + 1] = List.range' 1 (n + 1) := by
  rw [List.range'_concat]
  simp [Nat.add_comm]

theorem tStep_ok (budget : Nat) (s : PackState) (v : Video)
    (h1 : s.sched.map Prod.fst = List.range' 1 (s.day - 1))
    (h2 : 1 ≤ s.day)
    (h3 : s.curDur = (s.cur.map Video.durationSeconds).sum)
    (h4 : s.curDur ≤ budget)
    (h5 : ∀ p ∈ s.sched, p.2 ≠ [] ∧
      ((p.2.map Video.durationSeconds).sum ≤ budget ∨
        ∃ u, p.2 = [u] ∧ budget < u.durationSeconds)) :
    ((tStep budget s v).sched.map Prod.fst = List.range' 1 ((tStep budget s v).day - 1)) ∧
    1 ≤ (tStep budget s v).day ∧
    (tStep budget s v).curDur = ((tStep budget s v).cur.map Video.durationSeconds).sum ∧
    (tStep budget s v).curDur ≤ budget ∧
    (∀ p ∈ (tStep budget s v).sched, p.2 ≠ [] ∧
      ((p.2.map Video.durationSeconds).sum ≤ budget ∨
        ∃ u, p.2 = [u] ∧ budget < u.durationSeconds)) ∧
    ((tStep budget s v).sched.map Prod.snd).flatten ++ (tStep budget s v).cur =
      ((s.sched.map Prod.snd).flatten ++ s.cur) ++ [v] := by
  obtain ⟨sch, day, cur, cd⟩ := s
  simp only at h1 h2 h3 h4 h5
  obtain ⟨n, rfl⟩ : ∃ n, day = n + 1 := ⟨day - 1, by omega⟩
  simp only [Nat.add_sub_cancel] at h1
  unfold tStep
  by_cases hov : budget < v.durationSeconds
  · by_cases hcur : cur = []
    · subst hcur
      simp only [if_pos hov, if_pos rfl]
      refine ⟨?_, by omega, by simp, by simp, ?_, ?_⟩
      · simp [h1, range'_one_snoc]
      · intro p hp
        rcases List.mem_append.mp hp with h | h
        · exact h5 p h
        · simp only [List.mem_singleton] at h
          subst h
          exact ⟨by simp, Or.inr ⟨v, rfl, hov⟩⟩
      · simp [List.map_append, List.flatten_append]
    · simp only [if_pos hov, if_neg hcur]
      refine ⟨?_, by omega, by simp, by omega, ?_, ?_⟩
      · simp only [List.map_append, h1]
        rw [List.append_assoc]
        simp only [Nat.add_sub_cancel]
        rw [show ([(n + 1, cur)].map Prod.fst) ++ ([((n + 1 + 1, [v]) : Nat × List Video)].map Prod.fst)
            = [n + 1] ++ [n + 2] from by simp]
        rw [show ([n + 1] ++ [n + 2] : List Nat) = [n + 1] ++ [n + 1 + 1] from by norm_num,
          ← List.append_assoc, range'_one_snoc, range'_one_snoc]
      · intro p hp
        rcases List.mem_append.mp hp with h | h
        · rcases List.mem_append.mp h with h' | h'
          · exact h5 p h'
          · simp only [List.mem_singleton] at h'
            subst h'
            exact ⟨hcur, Or.inl (by rw [← h3]; exact h4)⟩
        · simp only [List.mem_singleton] at h
          subst h
          exact ⟨by simp, Or.inr ⟨v, rfl, hov⟩⟩
      · simp [List.map_append, List.flatten_append, List.append_assoc]
  · by_cases hfit : cd + v.durationSeconds ≤ budget
    · simp only [if_neg hov, if_pos hfit]
      refine ⟨by simpa using h1, by omega, ?_, hfit, h5, ?_⟩
      · simp [h3]
      · simp [List.append_assoc]
    · simp only [if_neg hov, if_neg hfit]
      have hcur : cur ≠ [] := by
        intro h
        subst h
        simp at h3
        omega
      refine ⟨?_, by omega, by simp, by omega, ?_, ?_⟩
      · simp [List.map_append, h1, Nat.add_sub_cancel, range'_one_snoc]
      · intro p hp
        rcases List.mem_append.mp hp with h | h
        · exact h5 p h
        · simp only [List.mem_singleton] at h
          subst h
          exact ⟨hcur, Or.inl (by rw [← h3]; exact h4)⟩
      · simp [List.map_append, List.flatten_append, List.append_assoc]

theorem tFold_ok (budget : Nat) (vs : List Video) : ∀ (s : PackState),
    s.sched.map Prod.fst = List.range' 1 (s.day - 1) →
    1 ≤ s.day →
    s.curDur = (s.cur.map Video.durationSeconds).sum →
    s.curDur ≤ budget →
    (∀ p ∈ s.sched, p.2 ≠ [] ∧
      ((p.2.map Video.durationSeconds).sum ≤ budget ∨
        ∃ u, p.2 = [u] ∧ budget < u.durationSeconds)) →
    ((vs.foldl (tStep budget) s).sched.map Prod.fst =
      List.range' 1 ((vs.foldl (tStep budget) s).day - 1)) ∧
    1 ≤ (vs.foldl (tStep budget) s).day ∧
    (vs.foldl (tStep budget) s).curDur =
      ((vs.foldl (tStep budget) s).cur.map Video.durationSeconds).sum ∧
    (vs.foldl (tStep budget) s).curDur ≤ budget ∧
    (∀ p ∈ (vs.foldl (tStep budget) s).sched, p.2 ≠ [] ∧
      ((p.2.map Video.durationSeconds).sum ≤ budget ∨
        ∃ u, p.2 = [u] ∧ budget < u.durationSeconds)) ∧
    ((vs.foldl (tStep budget) s).sched.map Prod.snd).flatten ++ (vs.foldl (tStep budget) s).cur =
      ((s.sched.map Prod.snd).flatten ++ s.cur) ++ vs := by
  induction vs with
  | nil =>
    intro s h1 h2 h3 h4 h5
    simp only [List.foldl_nil, List.append_nil]
    exact ⟨h1, h2, h3, h4, h5, trivial⟩
  | cons v vs ih =>
    intro s h1 h2 h3 h4 h5
    rw [List.foldl_cons]
    obtain ⟨g1, g2, g3, g4, g5, g6⟩ := tStep_ok budget s v h1 h2 h3 h4 h5
    obtain ⟨r1, r2, r3, r4, r5, r6⟩ := ih (tStep budget s v) g1 g2 g3 g4 g5
    refine ⟨r1, r2, r3, r4, r5, ?_⟩
    rw [r6, g6]
    simp

theorem create_schedule_time_based_spec (videos : List Video) (m : Nat) :
    ((create_schedule_time_based videos m).map Prod.fst =
      List.range' 1 (create_schedule_time_based videos m).length) ∧
    (∀ p ∈ create_schedule_time_based videos m, p.2 ≠ [] ∧
      ((p.2.map Video.durationSeconds).sum ≤ m * 60 ∨
        ∃ u, p.2 = [u] ∧ m * 60 < u.durationSeconds)) ∧
    ((create_schedule_time_based videos m).map Prod.snd).flatten = videos := by
  obtain ⟨r1, r2, r3, r4, r5, r6⟩ :=
    tFold_ok (m * 60) videos ⟨[], 1, [], 0⟩ (by simp) (by simp) (by simp) (by simp) (by simp)
  unfold create_schedule_time_based
  set f := videos.foldl (tStep (m * 60)) ⟨[], 1, [], 0⟩ with hf
  simp only at r1 r2 r3 r4 r5 r6
  by_cases hcur : f.cur = []
  · simp only [if_pos hcur]
    have hlen : f.sched.length = f.day - 1 := by
      have := congrArg List.length r1
      simpa using this
    refine ⟨by rw [hlen, r1], r5, ?_⟩
    rw [hcur] at r6
    simpa using r6
  · simp only [if_neg hcur]
    obtain ⟨n, hn⟩ : ∃ n, f.day = n + 1 := ⟨f.day - 1, by omega⟩
    have hlen : f.sched.length = n := by
      have := congrArg List.length r1
      simp [hn] at this
      simpa using this
    refine ⟨?_, ?_, ?_⟩
    · simp only [List.map_append, List.length_append, r1, hn, hlen]
      simpa using range'_one_snoc n
    · intro p hp
      rcases List.mem_append.mp hp with h | h
      · exact r5 p h
      · simp only [List.mem_singleton] at h
        subst h
        exact ⟨hcur, Or.inl (by rw [← r3]; exact r4)⟩
    · simp only [List.map_append, List.flatten_append]
      simpa using r6

/-! ## Lemmas about the day-count packer -/

theorem range'_one_append (m k : Nat) :
    List.range' 1 m ++ List.range' (m + 1) k = List.range' 1 (m + k) := by
  have h := List.range'_append 1 m k 1
  simp only [Nat.one_mul] at h
  rw [Nat.add_comm 1 m] at h
  rw [h, Nat.add_comm]

theorem map_fst_filler (a k : Nat) :
    ((List.range' a k).map (fun i => ((i, [revisionDay]) : Nat × List Video))).map Prod.fst =
      List.range' a k := by
  simp [List.map_map, Function.comp_def]

theorem dLoop_ok (total num : Nat) (P : Video → Prop) (vs : List Video) : ∀ (s : PackState),
    s.sched.map Prod.fst = List.range' 1 (s.day - 1) →
    1 ≤ s.day →
    s.day ≤ num →
    (∀ p ∈ s.sched, p.2 ≠ []) →
    (∀ p ∈ s.sched, ∀ u ∈ p.2, P u) →
    (∀ u ∈ s.cur, P u) →
    (∀ u ∈ vs, P u) →
    ((dLoop total num s vs).sched.map Prod.fst =
      List.range' 1 ((dLoop total num s vs).day - 1)) ∧
    1 ≤ (dLoop total num s vs).day ∧
    (dLoop total num s vs).day ≤ num + 1 ∧
    ((dLoop total num s vs).day = num + 1 → (dLoop total num s vs).cur = []) ∧
    ((dLoop total num s vs).cur = [] →
      (vs = [] ∧ s.cur = []) ∨ (dLoop total num s vs).day = num + 1) ∧
    (∀ p ∈ (dLoop total num s vs).sched, p.2 ≠ []) ∧
    (∀ p ∈ (dLoop total num s vs).sched, ∀ u ∈ p.2, P u) ∧
    (∀ u ∈ (dLoop total num s vs).cur, P u) := by
  induction vs with
  | nil =>
    intro s h1 h2 h3 h4 h5 h6 _
    simp only [dLoop]
    exact ⟨h1, h2, by omega, by omega, fun hc => Or.inl ⟨by trivial, hc⟩, h4, h5, h6⟩
  | cons v tl ih =>
    intro s h1 h2 h3 h4 h5 h6 h7
    have hv : P v := h7 v (by simp)
    have htl : ∀ u ∈ tl, P u := fun u hu => h7 u (by simp [hu])
    obtain ⟨n1, hn1⟩ : ∃ k, s.day = k + 1 := ⟨s.day - 1, by omega⟩
    have hsnoc : (s.sched ++ [(s.day, s.cur)]).map Prod.fst =
        List.range' 1 ((s.day + 1) - 1) := by
      rw [List.map_append, h1, hn1]
      simpa using range'_one_snoc n1
    have hne : ∀ p ∈ s.sched ++ [(s.day, s.cur)], s.cur ≠ [] → p.2 ≠ [] := by
      intro p hp hc
      rcases List.mem_append.mp hp with h | h
      · exact h4 p h
      · rw [List.mem_singleton] at h
        subst h
        exact hc
    have hmem : ∀ p ∈ s.sched ++ [(s.day, s.cur)], ∀ u ∈ p.2, P u := by
      intro p hp
      rcases List.mem_append.mp hp with h | h
      · exact h5 p h
      · rw [List.mem_singleton] at h
        subst h
        exact h6
    simp only [dLoop]
    by_cases hclose : total < (s.curDur + v.durationSeconds) * num ∧ s.cur ≠ []
    · by_cases hbrk : num < s.day + 1
      · rw [if_pos hclose, if_pos hbrk]
        have hdq : s.day = num := by omega
        refine ⟨hsnoc, show 1 ≤ s.day + 1 by omega, show s.day + 1 ≤ num + 1 by omega,
          fun _ => by trivial, fun _ => Or.inr (show s.day + 1 = num + 1 by omega),
          fun p hp => hne p hp hclose.2, hmem, by simp⟩
      · rw [if_pos hclose, if_neg hbrk]
        obtain ⟨r1, r2, r3, r4, r5, r6, r7, r8⟩ :=
          ih ⟨s.sched ++ [(s.day, s.cur)], s.day + 1, [v], v.durationSeconds⟩
            hsnoc (show 1 ≤ s.day + 1 by omega) (show s.day + 1 ≤ num by omega)
            (fun p hp => hne p hp hclose.2) hmem
            (show ∀ u ∈ [v], P u by simpa using hv) htl
        refine ⟨r1, r2, r3, r4, fun hc => ?_, r6, r7, r8⟩
        rcases r5 hc with h | h
        · exact absurd h.2 (by simp)
        · exact Or.inr h
    · rw [if_neg hclose]
      obtain ⟨r1, r2, r3, r4, r5, r6, r7, r8⟩ :=
        ih ⟨s.sched, s.day, s.cur ++ [v], s.curDur + v.durationSeconds⟩
          h1 h2 h3 h4 h5
          (show ∀ u ∈ s.cur ++ [v], P u by
            intro u hu
            rcases List.mem_append.mp hu with h | h
            · exact h6 u h
            · rw [List.mem_singleton] at h
              subst h
              exact hv) htl
      refine ⟨r1, r2, r3, r4, fun hc => ?_, r6, r7, r8⟩
      rcases r5 hc with h | h
      · exact absurd h.2 (by simp)
      · exact Or.inr h

theorem create_schedule_day_based_spec (videos : List Video) (n : Nat)
    (hvid : videos ≠ []) (hn : 0 < n) :
    ((create_schedule_day_based videos n).map Prod.fst = List.range' 1 n) ∧
    (create_schedule_day_based videos n).length = n ∧
    (∀ p ∈ create_schedule_day_based videos n, p.2 ≠ [] ∧
      ((∀ u ∈ p.2, u ∈ videos) ∨ p.2 = [revisionDay])) := by
  obtain ⟨r1, r2, r3, r4, r5, r6, r7, r8⟩ :=
    dLoop_ok ((videos.map Video.durationSeconds).sum) n (fun u => u ∈ videos) videos
      ⟨[], 1, [], 0⟩ (by simp) (by simp) hn (by simp) (by simp) (by simp) (fun u hu => hu)
  unfold create_schedule_day_based
  rw [if_neg hvid]
  set f := dLoop ((videos.map Video.durationSeconds).sum) n ⟨[], 1, [], 0⟩ videos with hfd
  have hmain :
      ((if f.cur ≠ [] ∧ f.day ≤ n then f.sched ++ [(f.day, f.cur)] else f.sched) ++
        (List.range' (f.day + 1) (n - f.day)).map (fun i => (i, [revisionDay]))).map Prod.fst =
      List.range' 1 n := by
    by_cases hflush : f.cur ≠ [] ∧ f.day ≤ n
    · rw [if_pos hflush]
      obtain ⟨k, hk⟩ : ∃ k, f.day = k + 1 := ⟨f.day - 1, by omega⟩
      have hg : (f.sched ++ [(f.day, f.cur)]).map Prod.fst = List.range' 1 f.day := by
        rw [List.map_append, r1, hk]
        simpa using range'_one_snoc k
      rw [List.map_append, hg, map_fst_filler, range'_one_append]
      rw [show f.day + (n - f.day) = n from by omega]
    · rw [if_neg hflush]
      have hcur : f.cur = [] := by
        by_cases hc : f.cur = []
        · exact hc
        · have hlt : n < f.day := by
            rcases not_and_or.mp hflush with h | h
            · exact absurd hc (by simpa using h)
            · omega
          exact r4 (by omega)
      have hday : f.day = n + 1 := by
        rcases r5 hcur with h | h
        · exact absurd h.1 hvid
        · exact h
      rw [List.map_append, map_fst_filler, hday]
      rw [show n - (n + 1) = 0 from by omega]
      simp only [List.range'_zero, List.append_nil]
      rw [r1, hday]
      simp only [Nat.add_sub_cancel]
  refine ⟨hmain, ?_, ?_⟩
  · have hlen := congrArg List.length hmain
    simpa using hlen
  · intro p hp
    rcases List.mem_append.mp hp with h | h
    · by_cases hflush : f.cur ≠ [] ∧ f.day ≤ n
      · rw [if_pos hflush] at h
        rcases List.mem_append.mp h with h2 | h2
        · exact ⟨r6 p h2, Or.inl (r7 p h2)⟩
        · rw [List.mem_singleton] at h2
          subst h2
          exact ⟨hflush.1, Or.inl r8⟩
      · rw [if_neg hflush] at h
        exact ⟨r6 p h, Or.inl (r7 p h)⟩
    · rw [List.mem_map] at h
      obtain ⟨i, _, rfl⟩ := h
      exact ⟨by simp, Or.inr rfl⟩

/-! ## Claims about the packers -/

/-- C1 (failing evaluation): on three 10-second videos and a 2-day target,
create_schedule_day_based emits only the first two videos and silently
drops the third (the break after closing Day 2 happens before the video in
hand is appended), so the non-filler items of the output are not the input
multiset. -/
theorem day_based_drops_items :
    ((create_schedule_day_based
        [⟨"a", 10, some ("A"), none⟩, ⟨"b", 10, some ("B"), none⟩, ⟨"c", 10, some ("C"), none⟩]
        2).map Prod.snd).flatten =
      [⟨"a", 10, some ("A"), none⟩, ⟨"b", 10, some ("B"), none⟩] ∧
    (⟨"c", 10, some ("C"), none⟩ : Video) ∈
      [⟨"a", 10, some ("A"), none⟩, ⟨"b", 10, some ("B"), none⟩,
        (⟨"c", 10, some ("C"), none⟩ : Video)] ∧
    (⟨"c", 10, some ("C"), none⟩ : Video) ∉
      ((create_schedule_day_based
        [⟨"a", 10, some ("A"), none⟩, ⟨"b", 10, some ("B"), none⟩, ⟨"c", 10, some ("C"), none⟩]
        2).map Prod.snd).flatten := by
  refine ⟨by rfl, by simp, ?_⟩
  decide

/-- C3: for a nonempty item sequence and a positive target count, the
day-count packer yields buckets indexed exactly 1..targetBucketCount
(anchor 0), exactly targetBucketCount of them, each either made of input
items or equal to the one-item Revision Day filler bucket. -/
theorem day_count_packer_target_exact (videos : List Video) (n : Nat)
    (hvid : videos ≠ []) (hn : 0 < n) :
    ((create_schedule_day_based videos n).map Prod.fst = List.range' 1 n) ∧
    (create_schedule_day_based videos n).length = n ∧
    (∀ p ∈ create_schedule_day_based videos n,
      (∀ u ∈ p.2, u ∈ videos) ∨ p.2 = [revisionDay]) := by
  obtain ⟨a, b, c⟩ := create_schedule_day_based_spec videos n hvid hn
  exact ⟨a, b, fun p hp => (c p hp).2⟩

/-- C3 witness: two items with a 5-day target give buckets 1..5, the last
three being Revision Day filler. -/
theorem day_count_packer_target_exact_witness :
    ((create_schedule_day_based
        [⟨"a", 600, some ("A"), none⟩, ⟨"b", 600, some ("B"), none⟩] 5).map Prod.fst =
      List.range' 1 5) ∧
    (create_schedule_day_based
        [⟨"a", 600, some ("A"), none⟩, ⟨"b", 600, some ("B"), none⟩] 5).length = 5 ∧
    (∀ p ∈ create_schedule_day_based
        [⟨"a", 600, some ("A"), none⟩, ⟨"b", 600, some ("B"), none⟩] 5,
      (∀ u ∈ p.2, u ∈ [⟨"a", 600, some ("A"), none⟩, (⟨"b", 600, some ("B"), none⟩ : Video)]) ∨
        p.2 = [revisionDay]) :=
  day_count_packer_target_exact
    [⟨"a", 600, some ("A"), none⟩, ⟨"b", 600, some ("B"), none⟩] 5 (by decide) (by decide)

/-- C4: with a positive daily budget every bucket of the time-budget packer
sums to at most the budget unless it is a single item longer than the
budget, and the buckets concatenate back to the input list, so oversized
items are present, alone, never dropped and never split. -/
theorem time_budget_respected (videos : List Video) (m : Nat) (hm : 0 < m) :
    (∀ p ∈ create_schedule_time_based videos m,
      (p.2.map Video.durationSeconds).sum ≤ m * 60 ∨
        ∃ u, p.2 = [u] ∧ m * 60 < u.durationSeconds) ∧
    ((create_schedule_time_based videos m).map Prod.snd).flatten = videos := by
  obtain ⟨-, b, c⟩ := create_schedule_time_based_spec videos m
  exact ⟨fun p hp => (b p hp).2, c⟩

/-- C4 witness: the spec scenarios, 600+600+1200 seconds at a 20-minute
budget together with a 5000-second oversized item. -/
theorem time_budget_respected_witness :
    (∀ p ∈ create_schedule_time_based
        [⟨"a", 600, some ("A"), none⟩, ⟨"b", 600, some ("B"), none⟩,
          ⟨"c", 1200, some ("C"), none⟩, ⟨"d", 5000, some ("D"), none⟩] 20,
      (p.2.map Video.durationSeconds).sum ≤ 20 * 60 ∨
        ∃ u, p.2 = [u] ∧ 20 * 60 < u.durationSeconds) ∧
    ((create_schedule_time_based
        [⟨"a", 600, some ("A"), none⟩, ⟨"b", 600, some ("B"), none⟩,
          ⟨"c", 1200, some ("C"), none⟩, ⟨"d", 5000, some ("D"), none⟩] 20).map
      Prod.snd).flatten =
      [⟨"a", 600, some ("A"), none⟩, ⟨"b", 600, some ("B"), none⟩,
        ⟨"c", 1200, some ("C"), none⟩, ⟨"d", 5000, some ("D"), none⟩] :=
  time_budget_respected
    [⟨"a", 600, some ("A"), none⟩, ⟨"b", 600, some ("B"), none⟩,
      ⟨"c", 1200, some ("C"), none⟩, ⟨"d", 5000, some ("D"), none⟩] 20 (by decide)

/-- C5: for valid parameters the bucket indices of both packers are the
1-based gap-free increasing sequence 1..length, i.e. freshly packed buckets
are labelled sequentially from anchor + 1 with anchor 0. -/
theorem packer_indices_sequential (videos : List Video) (m n : Nat)
    (hm : 0 < m) (hn : 0 < n) :
    ((create_schedule_time_based videos m).map Prod.fst =
      List.range' 1 (create_schedule_time_based videos m).length) ∧
    ((create_schedule_day_based videos n).map Prod.fst =
      List.range' 1 (create_schedule_day_based videos n).length) := by
  refine ⟨(create_schedule_time_based_spec videos m).1, ?_⟩
  by_cases hvid : videos = []
  · subst hvid
    simp [create_schedule_day_based]
  · obtain ⟨a, b, -⟩ := create_schedule_day_based_spec videos n hvid hn
    rw [a, b]

/-- C5 witness: one 600-second item, budget 10 minutes, target 1 day. -/
theorem packer_indices_sequential_witness :
    ((create_schedule_time_based [⟨"a", 600, some ("A"), none⟩] 10).map Prod.fst =
      List.range' 1 (create_schedule_time_based [⟨"a", 600, some ("A"), none⟩] 10).length) ∧
    ((create_schedule_day_based [⟨"a", 600, some ("A"), none⟩] 1).map Prod.fst =
      List.range' 1 (create_schedule_day_based [⟨"a", 600, some ("A"), none⟩] 1).length) :=
  packer_indices_sequential [⟨"a", 600, some ("A"), none⟩] 10 1 (by decide) (by decide)

/-- C8: with an empty item sequence both packers return the empty schedule,
with no buckets, no filler and no error. -/
theorem empty_input_empty_schedule (m n : Nat) :
    create_schedule_time_based [] m = [] ∧ create_schedule_day_based [] n = [] :=
  ⟨rfl, rfl⟩

/-- C9: every bucket emitted by either packer holds at least one item; real
buckets are only flushed when nonempty and filler buckets hold exactly one
synthetic item. -/
theorem packer_buckets_nonempty (videos : List Video) (m n : Nat)
    (hm : 0 < m) (hn : 0 < n) :
    (∀ p ∈ create_schedule_time_based videos m, p.2 ≠ []) ∧
    (∀ p ∈ create_schedule_day_based videos n, p.2 ≠ []) := by
  refine ⟨fun p hp => ((create_schedule_time_based_spec videos m).2.1 p hp).1, ?_⟩
  by_cases hvid : videos = []
  · subst hvid
    intro p hp
    simp [create_schedule_day_based] at hp
  · exact fun p hp => ((create_schedule_day_based_spec videos n hvid hn).2.2 p hp).1

/-- C9 witness: a two-item input at a tight budget and a 3-day target. -/
theorem packer_buckets_nonempty_witness :
    (∀ p ∈ create_schedule_time_based
        [⟨"a", 600, some ("A"), none⟩, ⟨"b", 600, some ("B"), none⟩] 10, p.2 ≠ []) ∧
    (∀ p ∈ create_schedule_day_based
        [⟨"a", 600, some ("A"), none⟩, ⟨"b", 600, some ("B"), none⟩] 3, p.2 ≠ []) :=
  packer_buckets_nonempty
    [⟨"a", 600, some ("A"), none⟩, ⟨"b", 600, some ("B"), none⟩] 10 3 (by decide) (by decide)

/-! ## Claims about the summary calculator -/

theorem truthyLink_eq (v : Video) :
    truthyLink v = decide (v.link ≠ none ∧ v.link ≠ some ("")) := by
  rcases v with ⟨t, d, l, th⟩
  cases l with
  | none => simp [truthyLink]
  | some s =>
    simp only [truthyLink]
    by_cases hs : s = ""
    · subst hs
      rfl
    · have h1 : s.isEmpty = false := by
        rw [← Bool.not_eq_true, String.isEmpty_iff]
        exact hs
      simp [h1, hs]

theorem isSome_eq_decide (o : Option String) : o.isSome = decide (o ≠ none) := by
  cases o <;> simp

theorem sum_filterLength_flatten (P : Video → Bool) (schedule : List (Nat × List Video)) :
    (schedule.map (fun p => (p.2.filter P).length)).sum =
      ((schedule.map Prod.snd).flatten.filter P).length := by
  induction schedule with
  | nil => rfl
  | cons b rest ih => simp [List.filter_append, ih]

theorem sum_mapSum_flatten (P : Video → Bool) (schedule : List (Nat × List Video)) :
    (schedule.map (fun p => ((p.2.filter P).map Video.durationSeconds).sum)).sum =
      (((schedule.map Prod.snd).flatten.filter P).map Video.durationSeconds).sum := by
  induction schedule with
  | nil => rfl
  | cons b rest ih => simp [List.filter_append, ih]

/-- C7 counterexample: on the schedule with one bucket holding one item
whose link is the empty string (a non-filler item: its link is not null,
and it is counted by the total item count), get_schedule_summary reports
zero study buckets and a zero total duration, although the number of
buckets containing at least one non-filler item is 1 and the non-filler
durations sum to 600. -/
theorem summary_truthiness_counterexample :
    (get_schedule_summary [(1, [⟨"v", 600, some (""), none⟩])]).studyDays = 0 ∧
    (([((1 : Nat), [(⟨"v", 600, some (""), none⟩ : Video)])].filter
        (fun p => p.2.any (fun v => v.link.isSome))).length = 1) ∧
    (get_schedule_summary [(1, [⟨"v", 600, some (""), none⟩])]).totalDuration =
      format_duration 0 ∧
    ((([((1 : Nat), [(⟨"v", 600, some (""), none⟩ : Video)])].map
        Prod.snd).flatten.filter (fun v => v.link.isSome)).map Video.durationSeconds).sum
      = 600 ∧
    (get_schedule_summary [(1, [⟨"v", 600, some (""), none⟩])]).totalVideos = 1 := by
  refine ⟨?_, by decide, ?_, by decide, ?_⟩ <;> rfl

/-- C7 amended: get_schedule_summary returns the non-filler item count as
totalVideos, the bucket count as totalDays, and — with an empty-string
link treated like a missing link, unlike in the item count — the number of
buckets containing an item with a present nonempty link as studyDays, the
formatted duration sum of such items, and their floor-divided average,
reported as 00:00:00 instead of a division error when studyDays is zero. -/
theorem summary_amended (schedule : List (Nat × List Video)) :
    (get_schedule_summary schedule).totalVideos = specTotalItems schedule ∧
    (get_schedule_summary schedule).totalDays = schedule.length ∧
    (get_schedule_summary schedule).studyDays = specStudyBuckets schedule ∧
    (get_schedule_summary schedule).totalDuration =
      format_duration (specTotalSeconds schedule) ∧
    (get_schedule_summary schedule).averageDailyDuration =
      (if specStudyBuckets schedule = 0 then "00:00:00".toList
       else format_duration (specTotalSeconds schedule / specStudyBuckets schedule)) := by
  have hfun : truthyLink = fun v => decide (v.link ≠ none ∧ v.link ≠ some ("")) :=
    funext truthyLink_eq
  have htv : (schedule.map (fun p => (p.2.filter (fun v => v.link.isSome)).length)).sum =
      specTotalItems schedule := by
    unfold specTotalItems
    rw [show (fun v : Video => v.link.isSome) = (fun v : Video => decide (v.link ≠ none)) from
      funext (fun v => isSome_eq_decide v.link)]
    rw [sum_filterLength_flatten, ← List.countP_eq_length_filter]
  have hsd : (schedule.filter (fun p => p.2.any truthyLink)).length =
      specStudyBuckets schedule := by
    unfold specStudyBuckets
    rw [List.countP_eq_length_filter]
    congr 1
    apply List.filter_congr
    intro p _
    rw [hfun, Bool.eq_iff_iff, List.any_eq_true]
    simp only [decide_eq_true_eq]
  have hts : (schedule.map (fun p => ((p.2.filter truthyLink).map Video.durationSeconds).sum)).sum
      = specTotalSeconds schedule := by
    unfold specTotalSeconds
    rw [hfun, sum_mapSum_flatten]
  simp only [get_schedule_summary]
  exact ⟨htv, by trivial, hsd, by rw [hts], by rw [hts, hsd]⟩

/-! ## Claims about the re-planner -/

theorem packFold_ok (budget lo : Nat) (Q : Video → Prop) (vs : List Video) : ∀ (s : PackState),
    (∀ p ∈ s.sched, lo < p.1 ∧ ∀ u ∈ p.2, Q u) →
    lo < s.day →
    (∀ u ∈ s.cur, Q u) →
    (∀ u ∈ vs, Q u) →
    (∀ p ∈ (vs.foldl (packTimeStep budget) s).sched, lo < p.1 ∧ ∀ u ∈ p.2, Q u) ∧
    lo < (vs.foldl (packTimeStep budget) s).day ∧
    (∀ u ∈ (vs.foldl (packTimeStep budget) s).cur, Q u) := by
  induction vs with
  | nil =>
    intro s h1 h2 h3 _
    exact ⟨h1, h2, h3⟩
  | cons v tl ih =>
    intro s h1 h2 h3 h4
    have hv : Q v := h4 v (by simp)
    have htl : ∀ u ∈ tl, Q u := fun u hu => h4 u (by simp [hu])
    have hcur1 : ∀ u ∈ s.cur ++ [v], Q u := by
      intro u hu
      rcases List.mem_append.mp hu with h | h
      · exact h3 u h
      · rw [List.mem_singleton] at h
        subst h
        exact hv
    rw [List.foldl_cons]
    unfold packTimeStep
    by_cases hfit : s.curDur + v.durationSeconds ≤ budget
    · rw [if_pos hfit]
      exact ih ⟨s.sched, s.day, s.cur ++ [v], s.curDur + v.durationSeconds⟩ h1 h2 hcur1 htl
    · rw [if_neg hfit]
      by_cases hcur : s.cur = []
      · rw [if_pos hcur]
        exact ih ⟨s.sched, s.day, [v], v.durationSeconds⟩ h1 h2 (by simpa using hv) htl
      · rw [if_neg hcur]
        refine ih ⟨s.sched ++ [(s.day, s.cur)], s.day + 1, [v], v.durationSeconds⟩ ?_
          (show lo < s.day + 1 by omega) (by simpa using hv) htl
        intro p hp
        rcases List.mem_append.mp hp with h | h
        · exact h1 p h
        · rw [List.mem_singleton] at h
          subst h
          exact ⟨h2, h3⟩

theorem packByTimeBudget_ok (items : List Video) (budget anchor : Nat) :
    ∀ p ∈ packByTimeBudget items budget anchor, anchor < p.1 ∧ ∀ u ∈ p.2, u ∈ items := by
  obtain ⟨a, b, c⟩ :=
    packFold_ok budget anchor (fun u => u ∈ items) items ⟨[], anchor + 1, [], 0⟩
      (by simp) (show anchor < anchor + 1 by omega) (by simp) (fun u hu => hu)
  unfold packByTimeBudget
  intro p hp
  by_cases hcur : (items.foldl (packTimeStep budget) ⟨[], anchor + 1, [], 0⟩).cur = []
  · rw [if_pos hcur] at hp
    exact a p hp
  · rw [if_neg hcur] at hp
    rcases List.mem_append.mp hp with h | h
    · exact a p h
    · rw [List.mem_singleton] at h
      subst h
      exact ⟨b, c⟩

theorem mem_collectSnapshots (old : List (Nat × List (Video × Bool))) (u : Video) :
    u ∈ collectCompletedSnapshots old ↔
      ∃ p ∈ old, ∃ e ∈ p.2, e.2 = true ∧ e.1 = u := by
  unfold collectCompletedSnapshots
  rw [List.mem_flatten]
  constructor
  · rintro ⟨l, hl, hu⟩
    rw [List.mem_map] at hl
    obtain ⟨p, hp, rfl⟩ := hl
    rw [List.mem_map] at hu
    obtain ⟨e, he, rfl⟩ := hu
    rw [List.mem_filter] at he
    exact ⟨p, hp, e, he.1, he.2, rfl⟩
  · rintro ⟨p, hp, e, he, hc, rfl⟩
    refine ⟨(p.2.filter (fun e => e.2)).map Prod.fst, List.mem_map.mpr ⟨p, hp, rfl⟩, ?_⟩
    exact List.mem_map.mpr ⟨e, List.mem_filter.mpr ⟨he, hc⟩, rfl⟩

theorem mem_collectLinks (old : List (Nat × List (Video × Bool))) (l : Option String) :
    l ∈ collectCompletedLinks old ↔
      ∃ p ∈ old, ∃ e ∈ p.2, e.2 = true ∧ e.1.link = l := by
  unfold collectCompletedLinks
  rw [List.mem_flatten]
  constructor
  · rintro ⟨w, hw, hl⟩
    rw [List.mem_map] at hw
    obtain ⟨p, hp, rfl⟩ := hw
    rw [List.mem_map] at hl
    obtain ⟨e, he, rfl⟩ := hl
    rw [List.mem_filter] at he
    exact ⟨p, hp, e, he.1, he.2, rfl⟩
  · rintro ⟨p, hp, e, he, hc, rfl⟩
    refine ⟨(p.2.filter (fun e => e.2)).map (fun e => e.1.link),
      List.mem_map.mpr ⟨p, hp, rfl⟩, ?_⟩
    exact List.mem_map.mpr ⟨e, List.mem_filter.mpr ⟨he, hc⟩, rfl⟩

/-- C2: after replanning, every fresh item whose link was marked completed
in the old schedule is represented, marked completed, in the pinned anchor
bucket; no freshly packed bucket (index above the anchor) carries its link;
and the item is excluded from the remaining list handed to the re-packed
time allocation. -/
theorem replan_completion_stability
    (old : List (Nat × List (Video × Bool))) (fresh : List Video)
    (budget anchor : Nat) (v : Video)
    (hv : v ∈ fresh)
    (hc : ∃ p ∈ old, ∃ e ∈ p.2, e.2 = true ∧ e.1.link = v.link) :
    (∃ q ∈ replan old fresh budget anchor, q.1 = anchor ∧
      ∃ e ∈ q.2, e.1.link = v.link ∧ e.2 = true) ∧
    (∀ q ∈ replan old fresh budget anchor, anchor < q.1 →
      ∀ e ∈ q.2, e.1.link ≠ v.link) ∧
    v ∉ remainingOf fresh (collectCompletedLinks old) := by
  obtain ⟨p0, hp0, e0, he0, hc0, hl0⟩ := hc
  have hsnap : e0.1 ∈ collectCompletedSnapshots old :=
    (mem_collectSnapshots old e0.1).mpr ⟨p0, hp0, e0, he0, hc0, rfl⟩
  have hlink : v.link ∈ collectCompletedLinks old :=
    (mem_collectLinks old v.link).mpr ⟨p0, hp0, e0, he0, hc0, hl0⟩
  have hsne : collectCompletedSnapshots old ≠ [] := by
    intro h
    rw [h] at hsnap
    simp at hsnap
  unfold replan
  dsimp only
  rw [if_pos (Or.inr hsne)]
  refine ⟨?_, ?_, ?_⟩
  · refine ⟨(anchor, applyCompletion (collectCompletedLinks old)
      (collectCompletedSnapshots old)), ?_, rfl, ?_⟩
    · exact List.mem_map.mpr ⟨(anchor, collectCompletedSnapshots old),
        List.mem_cons_self _ _, rfl⟩
    · refine ⟨(e0.1, decide (e0.1.link ∈ collectCompletedLinks old)), ?_, hl0, ?_⟩
      · exact List.mem_map.mpr ⟨e0.1, hsnap, rfl⟩
      · rw [hl0]
        exact decide_eq_true hlink
  · intro q hq hgt e heq
    rw [List.mem_map] at hq
    obtain ⟨r, hr, rfl⟩ := hq
    rcases List.mem_cons.mp hr with h | hr2
    · subst h
      simp at hgt
    · have hrp := packByTimeBudget_ok (remainingOf fresh (collectCompletedLinks old))
        budget anchor r hr2
      unfold applyCompletion at heq
      rw [List.mem_map] at heq
      obtain ⟨u, hu, rfl⟩ := heq
      have hurem : u ∈ remainingOf fresh (collectCompletedLinks old) := hrp.2 u hu
      intro hlinkeq
      unfold remainingOf at hurem
      rw [List.mem_filter] at hurem
      have h2 := hurem.2
      simp only [Bool.not_eq_eq_eq_not, Bool.not_true, decide_eq_false_iff_not] at h2
      exact h2 (by
        show u.link ∈ collectCompletedLinks old
        rw [show u.link = v.link from hlinkeq]
        exact hlink)
  · unfold remainingOf
    rw [List.mem_filter]
    rintro ⟨-, h2⟩
    simp only [Bool.not_eq_eq_eq_not, Bool.not_true, decide_eq_false_iff_not] at h2
    exact h2 hlink

/-- C2 witness: one completed item pinned at anchor 2 stays completed in
the pinned bucket and out of the freshly packed Day 3 bucket. -/
theorem replan_completion_stability_witness :
    (∃ q ∈ replan [(2, [((⟨"a", 5, some ("L1"), none⟩ : Video), true)])]
        [⟨"a2", 5, some ("L1"), none⟩, ⟨"b", 7, some ("L2"), none⟩] 600 2, q.1 = 2 ∧
      ∃ e ∈ q.2, e.1.link = (⟨"a2", 5, some ("L1"), none⟩ : Video).link ∧ e.2 = true) ∧
    (∀ q ∈ replan [(2, [((⟨"a", 5, some ("L1"), none⟩ : Video), true)])]
        [⟨"a2", 5, some ("L1"), none⟩, ⟨"b", 7, some ("L2"), none⟩] 600 2, 2 < q.1 →
      ∀ e ∈ q.2, e.1.link ≠ (⟨"a2", 5, some ("L1"), none⟩ : Video).link) ∧
    (⟨"a2", 5, some ("L1"), none⟩ : Video) ∉
      remainingOf [⟨"a2", 5, some ("L1"), none⟩, ⟨"b", 7, some ("L2"), none⟩]
        (collectCompletedLinks [(2, [((⟨"a", 5, some ("L1"), none⟩ : Video), true)])]) :=
  replan_completion_stability
    [(2, [((⟨"a", 5, some ("L1"), none⟩ : Video), true)])]
    [⟨"a2", 5, some ("L1"), none⟩, ⟨"b", 7, some ("L2"), none⟩] 600 2
    ⟨"a2", 5, some ("L1"), none⟩ (by decide) (by decide)
